import Mathlib

/-!
Verification of the note-editor timeline core.

Shallow embedding of the `TimelineRecord` subsystem (entity model, history
engine, optimization passes) and of the `LaneRenderer` coordinate-mapping
algorithms, translated from the TypeScript source, together with proofs of
the testable properties of the specification.

Conventions of the embedding:
* JavaScript numbers are modelled as exact rationals (`ℚ`); all the numeric
  code under verification only adds, multiplies and divides.
* Object identity is modelled by value equality on the translated records
  (guids are the identity keys the program itself relies on).
* The derived lookup maps (`noteMap`, `lanePointMap`, `laneMap`) hold
  references to the very objects stored in the backing collections; the
  embedding keeps explicit association lists and mirrors every in-place
  field mutation of the source into the map entries, which is extensionally
  the behaviour of the aliased references.
* A `!` (non-null assertion) lookup that would crash at runtime on a missing
  guid is totalized with an explicit fallback value; the theorems below never
  depend on the fallback.
-/

namespace NoteEditor

/-! ## Rational positions (`Fraction` from src/math, file absent from src).
Modelled from the spec: a fraction is a numerator / positive denominator pair
and `to01` converts it exactly to the unit interval. -/

structure Fraction where
  numerator : ℤ
  denominator : ℤ
deriving DecidableEq

def Fraction.to01 (f : Fraction) : ℚ :=
  (f.numerator : ℚ) / (f.denominator : ℚ)

/-- Modelled from the spec: reduction of a fraction to lowest terms, used by
`Note.normalize` (the `Note` source file is absent from src; the spec only
says `save()` first normalizes all Notes). -/
def Fraction.reduce (f : Fraction) : Fraction :=
  let g : ℕ := Int.gcd f.numerator f.denominator
  if g = 0 then f else ⟨f.numerator / g, f.denominator / g⟩

/-- Linear interpolation, from src/math (file absent; standard definition the
renderer relies on). -/
def lerp (a b t : ℚ) : ℚ := a + (b - a) * t

/-- Inverse linear interpolation, from src/math (file absent). -/
def inverseLerp (a b v : ℚ) : ℚ := (v - a) / (b - a)

/-! ## Entity model (`objects/` record data, translated from the fields the
source files use; presentation-only fields are omitted). -/

structure NoteEditorProps where
  time : ℚ
deriving DecidableEq

structure Note where
  guid : String
  lane : String
  measureIndex : ℕ
  measurePosition : Fraction
  horizontalSize : ℚ
  horizontalPosition : Fraction
  type : String
  speed : ℚ
  layer : String
  editorProps : NoteEditorProps
deriving DecidableEq

structure NoteLine where
  guid : String
  head : String
  tail : String
  innerNotes : List String
deriving DecidableEq

structure Measure where
  index : ℕ
  x : ℚ
  y : ℚ
  width : ℚ
  height : ℚ
deriving DecidableEq

structure Lane where
  guid : String
  points : List String
  templateName : String
  division : ℕ
deriving DecidableEq

structure LanePoint where
  guid : String
  measureIndex : ℕ
  measurePosition : Fraction
  horizontalSize : ℚ
  horizontalPosition : Fraction
deriving DecidableEq

structure OtherObject where
  guid : String
  type : ℕ
  measureIndex : ℕ
  measurePosition : Fraction
  value : ℚ
  layer : String
deriving DecidableEq

/-- BPM markers are identified by a type predicate; the reinsertion code in
`removeOtherObject` writes `type: 0` for the synthesized BPM marker, so type
index 0 is the BPM type. -/
def OtherObject.isBPM (o : OtherObject) : Bool :=
  o.type = 0

/-- Chart position of a note: measure index plus unit-interval offset
(`note.measureIndex + Fraction.to01(note.measurePosition)`). -/
def Note.getMeasurePosition (n : Note) : ℚ :=
  (n.measureIndex : ℚ) + n.measurePosition.to01

/-- Chart position of an OtherObject, the key `sortMeasure` compares by
(`Measure` source file absent; modelled from the spec's chart-position
ordering). -/
def OtherObject.chartPosition (o : OtherObject) : ℚ :=
  (o.measureIndex : ℚ) + o.measurePosition.to01

/-- Modelled from the spec: `Note.normalize` reduces the note's rational
positions; it does not touch any other field. -/
def Note.normalize (n : Note) : Note :=
  { n with measurePosition := n.measurePosition.reduce,
           horizontalPosition := n.horizontalPosition.reduce }

/-! ## A stable sort by a rational key.
`Array.prototype.sort` with a numeric comparator `key a - key b` is a stable
sort by `key`; we model it with a stable insertion sort. -/

def insertSorted (key : α → ℚ) (x : α) : List α → List α
  | [] => [x]
  | y :: ys => if key x ≤ key y then x :: y :: ys else y :: insertSorted key x ys

def stableSortBy (key : α → ℚ) : List α → List α
  | [] => []
  | x :: xs => insertSorted key x (stableSortBy key xs)

/-- A list is sorted by the key when adjacent keys are nondecreasing. -/
def KeySorted (key : α → ℚ) (l : List α) : Prop :=
  List.Chain' (fun a b => key a ≤ key b) l

/-! ## The Timeline aggregate (`objects/Timeline.ts`, src/unnamed/part_004). -/

/-- The serializable timeline state (`TimelineData` / the result of `toJS`). -/
structure TimelineData where
  notes : List Note
  noteLines : List NoteLine
  measures : List Measure
  lanes : List Lane
  lanePoints : List LanePoint
  otherObjects : List OtherObject
deriving DecidableEq

def defaultTimelineData : TimelineData :=
  ⟨[], [], [], [], [], []⟩

/-- A structural diff produced by `fast-json-patch`'s `compare(a, b)`.
Modelled from the spec: the library is an external collaborator whose
contract is that applying `compare(a, b)` to document `a` yields `b`;
applying a patch to a document other than its base is a structural-diff
apply failure, which the spec declares fatal to the undo/redo attempted. -/
structure Patch where
  base : TimelineData
  target : TimelineData
deriving DecidableEq

def patchCompare (a b : TimelineData) : Patch := ⟨a, b⟩

def patchApply (d : TimelineData) (p : Patch) : Option TimelineData :=
  if d = p.base then some p.target else none

/-- One history checkpoint: the pair of structural patches pushed by `save`. -/
structure History where
  undoPatch : Patch
  redoPatch : Patch
deriving DecidableEq

/-- The `TimeCalculator` is an external collaborator (utils/TimeCalculator is
absent from src); the timeline constructs it from the sorted OtherObject list
and the measure list, so the embedding records exactly those inputs. -/
structure TimeCalculator where
  objects : List OtherObject
  measures : List Measure
deriving DecidableEq

/-- Modelled from the spec: `getTime` maps a continuous chart position to
seconds; its tempo-integration algorithm is external, and the claims depend
only on it being a deterministic function of its inputs. -/
def TimeCalculator.getTime (_tc : TimeCalculator) (pos : ℚ) : ℚ :=
  pos

/-- The full in-memory state of a `TimelineRecord` (entity collections,
derived indices, and the history engine's fields; `canUndo`/`canRedo` live on
the owning `Chart` in the source and are folded into the state here). -/
structure TimelineState where
  data : TimelineData
  noteMap : List (String × Note)
  lanePointMap : List (String × LanePoint)
  laneMap : List (String × Lane)
  timeCalculator : TimeCalculator
  histories : List History
  historyIndex : ℕ
  prevData : TimelineData
  canUndo : Bool
  canRedo : Bool
  previouslyCreatedNote : Option String
deriving DecidableEq

/-- `toJS`: the serialized timeline state. -/
def TimelineState.toJS (st : TimelineState) : TimelineData :=
  st.data

/-- `calculateTime()`: rebuilds the TimeCalculator from all OtherObjects
sorted by chart position plus the measures, and recomputes every note's
judgment time from its continuous chart position.  The notes are mutated in
place, so the aliased `noteMap` entries see the new times as well. -/
def calculateTime (st : TimelineState) : TimelineState :=
  let tc : TimeCalculator :=
    ⟨stableSortBy OtherObject.chartPosition st.data.otherObjects, st.data.measures⟩
  let upd : Note → Note := fun n =>
    { n with editorProps := { time := tc.getTime n.getMeasurePosition } }
  { st with timeCalculator := tc,
            data := { st.data with notes := st.data.notes.map upd },
            noteMap := st.noteMap.map (fun p => (p.1, upd p.2)) }

/-- `updateNoteMap()`: clears and refills `noteMap` from `notes`, then calls
`calculateTime()`. -/
def updateNoteMap (st : TimelineState) : TimelineState :=
  calculateTime { st with noteMap := st.data.notes.map (fun n => (n.guid, n)) }

/-- `updateLanePointMap()`. -/
def updateLanePointMap (st : TimelineState) : TimelineState :=
  { st with lanePointMap := st.data.lanePoints.map (fun p => (p.guid, p)) }

/-- `updateLaneMap()`: refills `laneMap` from `lanes`, then `calculateTime()`. -/
def updateLaneMap (st : TimelineState) : TimelineState :=
  calculateTime { st with laneMap := st.data.lanes.map (fun l => (l.guid, l)) }

/-- `noteMap.get(guid)` (Map lookup). -/
def noteMapGet (st : TimelineState) (g : String) : Option Note :=
  (st.noteMap.find? (fun p => decide (p.1 = g))).map (fun p => p.2)

/-- Fallback for `noteMap.get(...)!` on a missing guid (a runtime crash in
the source; never relied upon by the theorems). -/
def noteFallback : Note :=
  ⟨"", "", 0, ⟨0, 1⟩, 0, ⟨0, 1⟩, "", 1, "", ⟨0⟩⟩

/-- Placeholder for `guid()` (a freshly generated random identifier). -/
def generatedGuid : String := "generated-guid"

/-- Placeholder for `this.chart!.layers[0].guid` (the chart's first layer;
the Chart store is outside the embedded core). -/
def firstLayerGuid : String := "layer-0"

/-- The BPM marker `removeOtherObject` synthesizes when the last BPM marker
was removed: value 120, measure 0, position 0/1, type 0. -/
def replacementBPM : OtherObject :=
  ⟨generatedGuid, 0, 0, ⟨0, 1⟩, 120, firstLayerGuid⟩

/-- `addOtherObject(object)`: push, and recalculate time if it is a BPM. -/
def addOtherObject (st : TimelineState) (o : OtherObject) : TimelineState :=
  let st₁ := { st with data := { st.data with otherObjects := st.data.otherObjects ++ [o] } }
  if o.isBPM then calculateTime st₁ else st₁

/-- `removeOtherObject(object)`: filter the object out; if it was a BPM and
no BPM remains, synthesize the replacement BPM at the front of time, then
recalculate. -/
def removeOtherObject (st : TimelineState) (o : OtherObject) : TimelineState :=
  let st₁ := { st with data := { st.data with otherObjects := st.data.otherObjects.filter (fun x => decide (x ≠ o)) } }
  if o.isBPM then
    let st₂ :=
      if st₁.data.otherObjects.any (fun x => x.isBPM) then st₁
      else addOtherObject st₁ replacementBPM
    calculateTime st₂
  else st₁

/-- `addNote(note)` with the default `updateNoteMap = true`. -/
def addNote (st : TimelineState) (note : Note) : TimelineState :=
  updateNoteMap { st with data := { st.data with notes := st.data.notes ++ [note] } }

/-- `removeNote(note, updateNoteMap)`: clears the previously-created-note
reference if it is the removed note, deletes every NoteLine whose head or
tail is the note, strips the note's guid from every remaining NoteLine's
innerNotes, filters the note out of `notes`, and optionally refreshes the
note map. -/
def removeNoteAux (st : TimelineState) (note : Note) (updateMap : Bool) : TimelineState :=
  let pcn := if st.previouslyCreatedNote = some note.guid then none else st.previouslyCreatedNote
  let keptLines := st.data.noteLines.filter
    (fun nl => decide (¬(nl.head = note.guid ∨ nl.tail = note.guid)))
  let strippedLines := keptLines.map
    (fun nl => { nl with innerNotes := nl.innerNotes.filter (fun g => decide (g ≠ note.guid)) })
  let st₁ := { st with
    data := { st.data with noteLines := strippedLines,
                           notes := st.data.notes.filter (fun m => decide (m ≠ note)) },
    previouslyCreatedNote := pcn }
  if updateMap then updateNoteMap st₁ else st₁

/-- `removeNote(note)` with the default `updateNoteMap = true`. -/
def removeNote (st : TimelineState) (note : Note) : TimelineState :=
  removeNoteAux st note true

/-- `addNoteLine(noteLine)`. -/
def addNoteLine (st : TimelineState) (nl : NoteLine) : TimelineState :=
  { st with data := { st.data with noteLines := st.data.noteLines ++ [nl] } }

/-- `removeNoteLine(noteLine)`. -/
def removeNoteLine (st : TimelineState) (nl : NoteLine) : TimelineState :=
  { st with data := { st.data with noteLines := st.data.noteLines.filter (fun x => decide (x ≠ nl)) } }

/-- `addLanePoint(value)`. -/
def addLanePoint (st : TimelineState) (p : LanePoint) : TimelineState :=
  updateLanePointMap { st with data := { st.data with lanePoints := st.data.lanePoints ++ [p] } }

/-- `setLanes(lanes)`. -/
def setLanes (st : TimelineState) (lanes : List Lane) : TimelineState :=
  updateLaneMap { st with data := { st.data with lanes := lanes } }

/-- `addLane(lane)`. -/
def addLane (st : TimelineState) (lane : Lane) : TimelineState :=
  updateLaneMap { st with data := { st.data with lanes := st.data.lanes ++ [lane] } }

/-! ## History engine (`initialSave` / `save` / `undo` / `redo`). -/

/-- `toMutable(data)`: replaces every entity collection with the records
deserialized from `data`, then rebuilds `noteMap`, `lanePointMap` and
`laneMap` (the note-map rebuild also recalculates judgment times). -/
def toMutable (st : TimelineState) (d : TimelineData) : TimelineState :=
  updateLaneMap (updateLanePointMap (updateNoteMap { st with data := d }))

/-- The serialized data resulting from reloading `d` through `toMutable`:
every note's judgment time is recomputed from the reloaded collections. -/
def dataReload (d : TimelineData) : TimelineData :=
  let tc : TimeCalculator :=
    ⟨stableSortBy OtherObject.chartPosition d.otherObjects, d.measures⟩
  { d with notes := d.notes.map (fun n =>
      { n with editorProps := { time := tc.getTime n.getMeasurePosition } }) }

/-- `save()` first normalizes every note in place (the aliased map entries
see the change). -/
def normalizeNotes (st : TimelineState) : TimelineState :=
  { st with data := { st.data with notes := st.data.notes.map Note.normalize },
            noteMap := st.noteMap.map (fun p => (p.1, p.2.normalize)) }

/-- `initialSave()`: diff against the canonical empty state, advance the
cursor, snapshot. -/
def initialSave (st : TimelineState) : TimelineState :=
  { st with
    histories := st.histories ++
      [⟨patchCompare defaultTimelineData st.data, patchCompare st.data defaultTimelineData⟩],
    historyIndex := st.historyIndex + 1,
    prevData := st.data }

/-- `save()`: normalize, then on first save defer to `initialSave`;
otherwise truncate the checkpoints after the cursor, push the new
(undo, redo) patch pair diffed against the previous snapshot, advance the
cursor, set the undo/redo flags and refresh the snapshot. -/
def save (st : TimelineState) : TimelineState :=
  let st := normalizeNotes st
  if st.histories.length = 0 then initialSave st
  else
    { st with
      histories := st.histories.take st.historyIndex ++
        [⟨patchCompare st.prevData st.data, patchCompare st.data st.prevData⟩],
      historyIndex := st.historyIndex + 1,
      canUndo := true,
      canRedo := false,
      prevData := st.data }

/-- `undo()`: no-op unless `canUndo`; decrement the cursor, apply the
checkpoint's redo-direction patch to the previous snapshot, reload all
collections and indices from the result, update flags, and drop the
previously-created-note reference.  `none` models the fatal
structural-diff-apply failure. -/
def undo (st : TimelineState) : Option TimelineState :=
  if !st.canUndo then some st
  else
    let i := st.historyIndex - 1
    match st.histories.get? i with
    | none => none
    | some h =>
      match patchApply st.prevData h.redoPatch with
      | none => none
      | some d =>
        some (toMutable
          { st with historyIndex := i, prevData := d,
                    canRedo := true, canUndo := decide (1 < i),
                    previouslyCreatedNote := none } d)

/-- `redo()`: no-op unless `canRedo`; advance the cursor, apply the
checkpoint's undo-direction patch to the previous snapshot, reload, update
flags. -/
def redo (st : TimelineState) : Option TimelineState :=
  if !st.canRedo then some st
  else
    let i := st.historyIndex + 1
    match st.histories.get? (i - 1) with
    | none => none
    | some h =>
      match patchApply st.prevData h.undoPatch with
      | none => none
      | some d =>
        some (toMutable
          { st with historyIndex := i, prevData := d,
                    canUndo := true, canRedo := decide (i < st.histories.length),
                    previouslyCreatedNote := none } d)

/-- The freshly constructed record before `toMutable` and the first save. -/
def initialTimelineState (d : TimelineData) : TimelineState :=
  ⟨d, [], [], [], ⟨[], []⟩, [], 0, d, false, false, none⟩

/-- `TimelineRecord.new(chart, data)`: build the record, load the data
through `toMutable`, then `save()` (which takes the `initialSave` path). -/
def timelineNew (d : TimelineData) : TimelineState :=
  save (toMutable (initialTimelineState d) d)

/-- An edit: an arbitrary mutation of the serialized entity collections
applied to the live timeline (the history fields are untouched; built-in
operations additionally refresh the derived indices, which the history
engine does not read). -/
def editData (st : TimelineState) (e : TimelineData → TimelineData) : TimelineState :=
  { st with data := e st.data }

/-- A sequence of `save()` calls interleaved with edits: each block is the
(composite) edit applied before the next `save()`. -/
def processBlocks : TimelineState → List (TimelineData → TimelineData) → TimelineState
  | st, [] => st
  | st, e :: es => processBlocks (save (editData st e)) es

/-- Calling `undo()` n times in sequence; `none` is a fatal patch-apply
failure in one of the calls. -/
def undoTimes : ℕ → TimelineState → Option TimelineState
  | 0, st => some st
  | n + 1, st => (undoTimes n st).bind undo

/-! ## Optimization passes. -/

/-- The chart-position key the `optimizeLane` comparator computes for a lane
point guid: `this.lanePoints.find(lp => lp.guid === a)` followed by
`measureIndex + to01(measurePosition)`.  An unresolvable guid crashes at
runtime in the source and is totalized to key 0 here. -/
def lanePointKey (lanePoints : List LanePoint) (g : String) : ℚ :=
  match lanePoints.find? (fun lp => decide (lp.guid = g)) with
  | some lp => (lp.measureIndex : ℚ) + lp.measurePosition.to01
  | none => 0

/-- Sorting one lane's points by chart position (`lane.points.slice().sort`). -/
def sortLanePoints (lanePoints : List LanePoint) (lane : Lane) : Lane :=
  { lane with points := stableSortBy (lanePointKey lanePoints) lane.points }

/-- The sorting phase of `optimizeLane`: every lane's points are sorted in
place (the aliased `laneMap` entries see the change). -/
def sortPhase (st : TimelineState) : TimelineState :=
  { st with
    data := { st.data with lanes := st.data.lanes.map (sortLanePoints st.data.lanePoints) },
    laneMap := st.laneMap.map (fun p => (p.1, sortLanePoints st.data.lanePoints p.2)) }

/-- Scan for the first merge candidate: the first lane (scan order) for which
some other lane's leading point equals its trailing point
(`lane2.points[0] === lastLanePoint`, with JavaScript `undefined === undefined`
captured by the `Option` equality). -/
def findMergePair (lanes : List Lane) : Option (ℕ × ℕ) :=
  (List.range lanes.length).findSome? (fun i =>
    ((List.range lanes.length).find? (fun j =>
        decide (j ≠ i ∧
          ((lanes.get? j).bind (fun l => l.points.head?) =
           (lanes.get? i).bind (fun l => l.points.getLast?))))).map (fun j => (i, j)))

/-- One iteration of `optimizeLane`'s merge loop: if a merge pair exists,
re-point the absorbed lane's notes to the surviving lane, append the
absorbed lane's points (minus the shared head), and `setLanes` without the
absorbed lane.  Returns `none` when no merge is found (loop exit). -/
def mergeStep (st : TimelineState) : Option TimelineState :=
  match findMergePair st.data.lanes with
  | none => none
  | some (i, j) =>
    match st.data.lanes.get? i, st.data.lanes.get? j with
    | some lane, some nextLane =>
      let reassign : Note → Note := fun n =>
        if n.lane = nextLane.guid then { n with lane := lane.guid } else n
      let mergedLane := { lane with points := lane.points ++ nextLane.points.drop 1 }
      let st₁ := { st with
        data := { st.data with notes := st.data.notes.map reassign },
        noteMap := st.noteMap.map (fun p => (p.1, reassign p.2)) }
      some (setLanes st₁ ((st₁.data.lanes.set i mergedLane).eraseIdx j))
    | _, _ => none

/-- The fixed-point merge loop (`while (1) {...}`), with fuel: each merge
removes one lane, so `lanes.length + 1` steps always reach the fixed point
the unbounded source loop reaches. -/
def mergeLoop : ℕ → TimelineState → TimelineState
  | 0, st => st
  | n + 1, st =>
    match mergeStep st with
    | none => st
    | some st' => mergeLoop n st'

/-- `optimizeLane()`: sort every lane's points, then merge until no merge is
found. -/
def optimizeLane (st : TimelineState) : TimelineState :=
  let st₁ := sortPhase st
  mergeLoop (st₁.data.lanes.length + 1) st₁

/-- `optimizeNoteLine()`: for every NoteLine, order head before tail by
chart-position comparison (the two-element `sort(sortMeasure)` unfolded; the
stable sort keeps head first on ties). -/
def optimizeNoteLine (st : TimelineState) : TimelineState :=
  { st with data := { st.data with noteLines := st.data.noteLines.map (fun nl =>
      let h := (noteMapGet st nl.head).getD noteFallback
      let t := (noteMapGet st nl.tail).getD noteFallback
      if h.getMeasurePosition ≤ t.getMeasurePosition
      then { nl with head := h.guid, tail := t.guid }
      else { nl with head := t.guid, tail := h.guid }) } }

/-- One outer iteration of `optimizeNote`'s first loop: resolve head and tail
positions for the NoteLine, then walk its inner notes, removing (without a
map refresh) the out-of-range ones and collecting the surviving guids. -/
def optimizeNoteLineStep (acc : TimelineState × List String) (nl : NoteLine) :
    TimelineState × List String :=
  let headPos := ((noteMapGet acc.1 nl.head).getD noteFallback).getMeasurePosition
  let tailPos := ((noteMapGet acc.1 nl.tail).getD noteFallback).getMeasurePosition
  nl.innerNotes.foldl (fun (acc₂ : TimelineState × List String) g =>
    let note := (noteMapGet acc₂.1 g).getD noteFallback
    let pos := note.getMeasurePosition
    if pos < headPos ∨ pos > tailPos then (removeNoteAux acc₂.1 note false, acc₂.2)
    else (acc₂.1, acc₂.2 ++ [g])) acc

/-- One iteration of `optimizeNote`'s second loop: delete a remaining
zero-size note that no NoteLine references as an inner note. -/
def optimizeNoteZeroSizeStep (inner : List String) (s : TimelineState) (note : Note) :
    TimelineState :=
  if note.horizontalSize = 0 ∧ note.guid ∉ inner then removeNoteAux s note false else s

/-- `optimizeNote()`: delete inner notes that fall outside their NoteLine's
[head, tail] range, collect the surviving inner-note guids, then delete every
remaining zero-size note that no NoteLine references as an inner note;
finally refresh the note map.  The `for-of` loops iterate the arrays captured
at loop entry, as in the source. -/
def optimizeNote (st : TimelineState) : TimelineState :=
  let step1 := st.data.noteLines.foldl optimizeNoteLineStep (st, [])
  let st₂ := step1.1.data.notes.foldl (optimizeNoteZeroSizeStep step1.2) step1.1
  updateNoteMap st₂

/-- `optimize()` = `optimizeLane(); optimizeNoteLine(); optimizeNote()`. -/
def optimize (st : TimelineState) : TimelineState :=
  optimizeNote (optimizeNoteLine (optimizeLane st))

/-! ## Lane geometry resolver (`objects/LaneRenderer.ts`, src/unnamed/part_002). -/

structure Vector2 where
  x : ℚ
  y : ℚ
deriving DecidableEq

structure LinePointInfo where
  point : Vector2
  width : ℚ
deriving DecidableEq

/-- One per-measure line segment of a lane's rendered path. -/
structure LineInfo where
  measure : Measure
  start : LinePointInfo
  stop : LinePointInfo
deriving DecidableEq

/-- The `{x, width, value}` triple `getLines` maps each lane point to. -/
structure GLPoint where
  x : ℚ
  width : ℚ
  value : ℚ
deriving DecidableEq

def measureFallback : Measure := ⟨0, 0, 0, 0, 0⟩

/-- `getLines`' conversion of a chart-position value to a screen point within
measure `m` (`toLinePointInfo`). -/
def toLinePointInfo (measures : List Measure) (p₁ p₂ : GLPoint) (m : ℕ) (value : ℚ) : LinePointInfo :=
  let measure := (measures.get? m).getD measureFallback
  let p := inverseLerp p₁.value p₂.value value
  ⟨⟨measure.x + measure.width * lerp p₁.x p₂.x p,
    measure.y + measure.height * ((m : ℚ) + 1 - value)⟩,
   measure.width * lerp p₁.width p₂.width p⟩

/-- The inner `while (true)` loop of `getLines`, subdividing the span between
two consecutive control points at every integer measure boundary; fuel bounds
the number of boundaries crossed. -/
def getLinesInner (measures : List Measure) (p₁ p₂ : GLPoint) : ℕ → ℚ → ℚ → List LineInfo
  | 0, _, _ => []
  | fuel + 1, v₁, v₂ =>
    let m := (⌊v₁⌋).toNat
    let line : LineInfo :=
      ⟨(measures.get? m).getD measureFallback,
       toLinePointInfo measures p₁ p₂ m v₁,
       toLinePointInfo measures p₁ p₂ m v₂⟩
    if v₂ = p₂.value then [line]
    else line :: getLinesInner measures p₁ p₂ fuel v₂ (min (v₂ + 1) p₂.value)

/-- `getLines(points, measures)`: sort the control points by chart position,
convert them to `{x, width, value}` triples, and emit one line segment per
unit chart-position interval between each consecutive pair. -/
def getLines (points : List LanePoint) (measures : List Measure) : List LineInfo :=
  let pts := (stableSortBy (fun p => (p.measureIndex : ℚ) + p.measurePosition.to01) points).map
    (fun p => (⟨p.horizontalPosition.to01,
                p.horizontalSize / (p.horizontalPosition.denominator : ℚ),
                (p.measureIndex : ℚ) + p.measurePosition.to01⟩ : GLPoint))
  (pts.zip pts.tail).foldr (fun pr acc =>
    let p₁ := pr.1
    let p₂ := pr.2
    let fuel := (⌈p₂.value⌉ - ⌊p₁.value⌋).natAbs + 2
    getLinesInner measures p₁ p₂ fuel p₁.value (min (⌊p₁.value⌋ + 1 : ℚ) p₂.value) ++ acc) []

/-- The module-level `linesCache` WeakMap, keyed by lane (lanes are keyed by
their guid, the identity the program relies on). -/
abbrev LinesCache := List (String × List LineInfo)

/-- `linesCache.get(lane) || []`. -/
def cacheLines (cache : LinesCache) (lane : Lane) : List LineInfo :=
  ((cache.find? (fun e => decide (e.1 = lane.guid))).map (fun e => e.2)).getD []

/-- The cache effect of `LaneRenderer.render`: recompute the lane's line
segments from its (resolved) points and store them under the lane
(`linesCache.set(lane, lines)`);  the drawing side of `render` is external. -/
def renderCacheUpdate (cache : LinesCache) (lane : Lane)
    (lanePointMap : List (String × LanePoint)) (measures : List Measure) : LinesCache :=
  let pts := lane.points.map (fun g =>
    ((lanePointMap.find? (fun p => decide (p.1 = g))).map (fun p => p.2)).getD
      ⟨"", 0, ⟨0, 1⟩, 0, ⟨0, 1⟩⟩)
  (lane.guid, getLines pts measures) ::
    cache.filter (fun e => decide (e.1 ≠ lane.guid))

/-- `getNotePointInfo(lane, measure, horizontal, vertical)`: find the cached
segment of this measure whose vertical screen range contains the target
y-coordinate, then interpolate the x-bounds at that height and offset by the
horizontal sub-lane column. -/
def getNotePointInfo (cache : LinesCache) (lane : Lane) (measure : Measure)
    (horizontal vertical : Fraction) : Option LinePointInfo :=
  let y : ℚ := measure.y + measure.height * (1 - vertical.to01)
  match (cacheLines cache lane).find? (fun line =>
      decide (line.measure = measure ∧ y ≤ line.start.point.y ∧ line.stop.point.y ≤ y)) with
  | none => none
  | some targetLine =>
    let rate := inverseLerp targetLine.stop.point.y targetLine.start.point.y y
    let getX : LinePointInfo → ℚ → ℚ := fun info i =>
      info.point.x + info.width * (horizontal.to01 + i / (horizontal.denominator : ℚ))
    let left := lerp (getX targetLine.stop 0) (getX targetLine.start 0) rate
    let right := lerp (getX targetLine.stop 1) (getX targetLine.start 1) rate
    some ⟨⟨left, y⟩, right - left⟩

structure NotePointInfo where
  lane : Lane
  linePointInfo : Option LinePointInfo
  horizontalIndex : ℤ
  verticalIndex : ℕ
  measureIndex : ℕ
deriving DecidableEq

/-- The scan grid of `getNotePointInfoFromMousePosition`: horizontal index
`i` from `left` (exclusive) to `right`, vertical index `j` from 0 through
`measureDivision`, in scan order (`i` outer ascending, `j` inner ascending). -/
def hitCells (division : ℕ) (measureDivision : ℕ) (isResizeOrDragMode : Bool) : List (ℤ × ℕ) :=
  let left : ℤ := if isResizeOrDragMode then -(division : ℤ) else 0
  let count : ℕ := division + (if isResizeOrDragMode then division + 1 else 0)
  ((List.range count).map (fun k => left + (k : ℤ))).flatMap
    (fun i => (List.range (measureDivision + 1)).map (fun j => (i, j)))

/-- `getNotePointInfoFromMousePosition`: inverse mapping, scanning the grid
cells for the first whose projected rectangle (half a division height above
and below the point, full cell width) contains the mouse position; the last
row (`j == measureDivision`) is remapped to the first row of `nextMeasure`. -/
def getNotePointInfoFromMousePosition (cache : LinesCache) (lane : Lane)
    (measure nextMeasure : Measure) (measureDivision : ℕ) (mousePosition : Vector2)
    (isResizeOrDragMode : Bool) : Option NotePointInfo :=
  let height := measure.height / (measureDivision : ℚ) / 2
  match (hitCells lane.division measureDivision isResizeOrDragMode).find? (fun c =>
      match getNotePointInfo cache lane measure ⟨c.1, (lane.division : ℤ)⟩ ⟨(c.2 : ℤ), (measureDivision : ℤ)⟩ with
      | none => false
      | some d => decide (d.point.x ≤ mousePosition.x ∧ mousePosition.x < d.point.x + d.width ∧
          d.point.y - height ≤ mousePosition.y ∧ mousePosition.y < d.point.y + height)) with
  | none => none
  | some c =>
    if c.2 = measureDivision then
      some ⟨lane,
            getNotePointInfo cache lane nextMeasure ⟨c.1, (lane.division : ℤ)⟩ ⟨0, (measureDivision : ℤ)⟩,
            c.1, measureDivision - 1, nextMeasure.index⟩
    else
      some ⟨lane,
            getNotePointInfo cache lane measure ⟨c.1, (lane.division : ℤ)⟩ ⟨(c.2 : ℤ), (measureDivision : ℤ)⟩,
            c.1, measureDivision - c.2 - 1, measure.index⟩

/-! ## Consistency predicates (§3 of the spec: "every derived index is fully
consistent with its backing collection"). -/

/-- The three derived guid indices match their backing collections. -/
def MapsConsistent (st : TimelineState) : Prop :=
  st.noteMap = st.data.notes.map (fun n => (n.guid, n)) ∧
  st.lanePointMap = st.data.lanePoints.map (fun p => (p.guid, p)) ∧
  st.laneMap = st.data.lanes.map (fun l => (l.guid, l))

/-- The TimeCalculator was built from the current sorted OtherObjects and
the current measures. -/
def TimeCalculatorConsistent (st : TimelineState) : Prop :=
  st.timeCalculator = ⟨stableSortBy OtherObject.chartPosition st.data.otherObjects, st.data.measures⟩

/-- All four derived indices are consistent. -/
def IndicesConsistent (st : TimelineState) : Prop :=
  MapsConsistent st ∧ TimeCalculatorConsistent st

/-! ## Sample entities, used to instantiate the proved properties. -/

def noteA : Note := ⟨"note-a", "lane-a", 0, ⟨0, 1⟩, 1, ⟨0, 4⟩, "tap", 1, "layer-a", ⟨0⟩⟩

def noteB : Note := ⟨"note-b", "lane-a", 1, ⟨1, 2⟩, 1, ⟨1, 4⟩, "tap", 1, "layer-a", ⟨0⟩⟩

def lineAB : NoteLine := ⟨"line-ab", "note-a", "note-b", ["note-a", "note-c"]⟩

def bpm140 : OtherObject := ⟨"bpm-140", 0, 0, ⟨0, 1⟩, 140, "layer-a"⟩

def speedTwo : OtherObject := ⟨"speed-2", 1, 1, ⟨0, 1⟩, 2, "layer-a"⟩

def measure0 : Measure := ⟨0, 0, 0, 100, 50⟩

def measure1 : Measure := ⟨1, 0, -50, 100, 50⟩

def sampleData : TimelineData :=
  ⟨[noteA, noteB], [lineAB], [measure0, measure1], [], [], [bpm140]⟩

def sampleState : TimelineState := timelineNew sampleData

def sampleLane : Lane := ⟨"lane-a", [], "default", 4⟩

/-- A cached line segment covering measure 0 from its top (y = 0) to its
bottom (y = 50), 80 wide starting at x = 10 on its bottom edge. -/
def sampleLine : LineInfo := ⟨measure0, ⟨⟨10, 50⟩, 80⟩, ⟨⟨0, 0⟩, 0⟩⟩

def sampleCache : LinesCache := [("lane-a", [sampleLine])]

def noteCGuidOnly : Note :=
  ⟨"note-c", "lane-a", 0, ⟨1, 4⟩, 0, ⟨2, 4⟩, "tap", 1, "layer-a", ⟨0⟩⟩

/-- A cached constant-width segment covering measure 0, for the mouse
hit-test instance. -/
def line7 : LineInfo := ⟨measure0, ⟨⟨0, 50⟩, 80⟩, ⟨⟨0, 0⟩, 80⟩⟩

def cacheC7 : LinesCache := [("lane-a", [line7])]

/-- The serialized state after the first edited save: one note line. -/
def c2Data1 : TimelineData :=
  ⟨[], [⟨"line-x", "h1", "t1", []⟩], [], [], [], []⟩

/-- A fresh timeline, one edit (add a note line), then `save()`. -/
def c2SavedState : TimelineState :=
  save (editData (timelineNew defaultTimelineData)
    (fun d => { d with noteLines := [⟨"line-x", "h1", "t1", []⟩] }))

/-- The saved state above with one further edit that is not saved. -/
def c2State : TimelineState :=
  editData c2SavedState
    (fun d => { d with noteLines := [⟨"line-x", "h1", "t1", []⟩, ⟨"line-y", "h2", "t2", []⟩] })

/-- The sortedness invariant `optimizeLane` establishes: every lane in the
collection, and every lane the lane map binds, has its points sorted by the
lane-point chart-position key. -/
def LanesSorted (st : TimelineState) : Prop :=
  (∀ l ∈ st.data.lanes, KeySorted (lanePointKey st.data.lanePoints) l.points) ∧
  (∀ p ∈ st.laneMap, KeySorted (lanePointKey st.data.lanePoints) p.2.points)

/-- The part of map consistency `optimizeNote`'s removal loops cannot touch:
the lane-point map and the lane map against their collections. -/
def AuxMapsOK (st : TimelineState) : Prop :=
  st.lanePointMap = st.data.lanePoints.map (fun p => (p.guid, p)) ∧
  st.laneMap = st.data.lanes.map (fun l => (l.guid, l))

/-- A small timeline state whose derived indices are all consistent. -/
def c5State : TimelineState :=
  ⟨⟨[], [], [], [], [], [bpm140]⟩, [], [], [], ⟨[bpm140], []⟩,
   [⟨⟨defaultTimelineData, ⟨[], [], [], [], [], [bpm140]⟩⟩,
     ⟨⟨[], [], [], [], [], [bpm140]⟩, defaultTimelineData⟩⟩],
   1, ⟨[], [], [], [], [], [bpm140]⟩, false, false, none⟩

/-! ## Lemmas about the stable sort. -/

theorem keySorted_insertSorted (key : α → ℚ) (x : α) :
    ∀ l : List α, KeySorted key l → KeySorted key (insertSorted key x l) := by
  intro l
  induction l with
  | nil => intro _; simp [insertSorted, KeySorted]
  | cons y ys ih =>
    intro h
    rw [KeySorted, List.chain'_cons'] at h
    by_cases hxy : key x ≤ key y
    · rw [insertSorted, if_pos hxy, KeySorted, List.chain'_cons']
      refine ⟨?_, ?_⟩
      · intro z hz
        simp only [List.head?_cons, Option.mem_def, Option.some.injEq] at hz
        subst hz; exact hxy
      · rw [List.chain'_cons']; exact h
    · have hyx : key y ≤ key x := le_of_not_le hxy
      have htail : KeySorted key (insertSorted key x ys) := ih h.2
      rw [insertSorted, if_neg hxy, KeySorted, List.chain'_cons']
      refine ⟨?_, htail⟩
      intro z hz
      cases ys with
      | nil =>
        simp only [insertSorted, List.head?_cons, Option.mem_def, Option.some.injEq] at hz
        subst hz; exact hyx
      | cons w ws =>
        by_cases hxw : key x ≤ key w
        · rw [insertSorted, if_pos hxw] at hz
          simp only [List.head?_cons, Option.mem_def, Option.some.injEq] at hz
          subst hz; exact hyx
        · rw [insertSorted, if_neg hxw] at hz
          simp only [List.head?_cons, Option.mem_def, Option.some.injEq] at hz
          subst hz; exact h.1 w rfl

theorem keySorted_stableSortBy (key : α → ℚ) :
    ∀ l : List α, KeySorted key (stableSortBy key l) := by
  intro l
  induction l with
  | nil => simp [stableSortBy, KeySorted]
  | cons x xs ih => exact keySorted_insertSorted key x _ ih

theorem stableSortBy_eq_self (key : α → ℚ) :
    ∀ l : List α, KeySorted key l → stableSortBy key l = l := by
  intro l
  induction l with
  | nil => intro _; rfl
  | cons x xs ih =>
    intro h
    rw [KeySorted, List.chain'_cons'] at h
    rw [stableSortBy, ih h.2]
    cases xs with
    | nil => rfl
    | cons y ys =>
      have : key x ≤ key y := h.1 y rfl
      rw [insertSorted, if_pos this]

theorem stableSortBy_idem (key : α → ℚ) (l : List α) :
    stableSortBy key (stableSortBy key l) = stableSortBy key l :=
  stableSortBy_eq_self key _ (keySorted_stableSortBy key l)

/-! ## Frame lemmas for `calculateTime`. -/

theorem calculateTime_otherObjects (st : TimelineState) :
    (calculateTime st).data.otherObjects = st.data.otherObjects := rfl

theorem calculateTime_noteLines (st : TimelineState) :
    (calculateTime st).data.noteLines = st.data.noteLines := rfl

theorem calculateTime_measures (st : TimelineState) :
    (calculateTime st).data.measures = st.data.measures := rfl

theorem calculateTime_lanes (st : TimelineState) :
    (calculateTime st).data.lanes = st.data.lanes := rfl

theorem calculateTime_lanePoints (st : TimelineState) :
    (calculateTime st).data.lanePoints = st.data.lanePoints := rfl

theorem calculateTime_laneMap (st : TimelineState) :
    (calculateTime st).laneMap = st.laneMap := rfl

theorem calculateTime_lanePointMap (st : TimelineState) :
    (calculateTime st).lanePointMap = st.lanePointMap := rfl

/-- C10: removing a non-BPM OtherObject removes only that object from
`otherObjects` and changes nothing else: the notes, noteLines, lanes,
lanePoints and measures collections, the derived maps, the TimeCalculator,
the judgment times and the history fields are all untouched, and no time
recalculation or BPM reinsertion happens. -/
theorem C10_removeOtherObject_nonBPM_frame (st : TimelineState) (o : OtherObject)
    (h : o.isBPM = false) :
    removeOtherObject st o =
      { st with data := { st.data with
          otherObjects := st.data.otherObjects.filter (fun x => decide (x ≠ o)) } } := by
  simp [removeOtherObject, h]

theorem C10_witness :
    speedTwo.isBPM = false ∧
    removeOtherObject sampleState speedTwo =
      { sampleState with data := { sampleState.data with
          otherObjects := sampleState.data.otherObjects.filter (fun x => decide (x ≠ speedTwo)) } } :=
  ⟨rfl, C10_removeOtherObject_nonBPM_frame sampleState speedTwo rfl⟩

/-- C9: on a lane whose line-segment cache entry has never been populated (no
prior `render` call for that lane), `getNotePointInfo` answers `null` for
every measure, horizontal and vertical argument, because the lookup consults
only the per-lane cache. -/
theorem C9_unrendered_lane_no_point (cache : LinesCache) (lane : Lane)
    (h : cache.find? (fun e => decide (e.1 = lane.guid)) = none) :
    ∀ (measure : Measure) (horizontal vertical : Fraction),
      getNotePointInfo cache lane measure horizontal vertical = none := by
  intro m hz v
  simp [getNotePointInfo, cacheLines, h]

theorem C9_witness :
    ((([] : LinesCache).find? (fun e => decide (e.1 = sampleLane.guid))) = none) ∧
    getNotePointInfo [] sampleLane measure0 ⟨0, 4⟩ ⟨1, 4⟩ = none :=
  ⟨rfl, C9_unrendered_lane_no_point [] sampleLane rfl measure0 ⟨0, 4⟩ ⟨1, 4⟩⟩

/-- C3: after `removeNote(n)` returns, no NoteLine in the collection
references `n.guid` as head, as tail, or inside its `innerNotes`. -/
theorem C3_removeNote_no_dangling_references (st : TimelineState) (n : Note) :
    ∀ nl ∈ (removeNote st n).data.noteLines,
      nl.head ≠ n.guid ∧ nl.tail ≠ n.guid ∧ n.guid ∉ nl.innerNotes := by
  intro nl hnl
  simp only [removeNote, removeNoteAux, if_pos, updateNoteMap, calculateTime,
    List.mem_map, List.mem_filter, decide_eq_true_eq, not_or] at hnl
  obtain ⟨nl₀, ⟨_, hcond⟩, rfl⟩ := hnl
  refine ⟨hcond.1, hcond.2, ?_⟩
  intro hin
  simp only [List.mem_filter, decide_eq_true_eq] at hin
  exact hin.2 rfl

theorem C3_witness :
    (⟨"line-ab", "note-a", "note-b", ["note-a"]⟩ : NoteLine) ∈
      (removeNote sampleState noteCGuidOnly).data.noteLines ∧
    (⟨"line-ab", "note-a", "note-b", ["note-a"]⟩ : NoteLine).head ≠ noteCGuidOnly.guid ∧
    (⟨"line-ab", "note-a", "note-b", ["note-a"]⟩ : NoteLine).tail ≠ noteCGuidOnly.guid ∧
    noteCGuidOnly.guid ∉ (⟨"line-ab", "note-a", "note-b", ["note-a"]⟩ : NoteLine).innerNotes :=
  ⟨by decide,
   C3_removeNote_no_dangling_references sampleState noteCGuidOnly
     ⟨"line-ab", "note-a", "note-b", ["note-a"]⟩ (by decide)⟩

/-- C4: removing the last BPM marker leaves exactly one BPM marker, the
synthesized one of value 120 at measure 0; and whenever at least one BPM
marker exists, it still exists after any `addOtherObject` or
`removeOtherObject` (the timeline never reaches zero BPM markers through the
add/remove operations). -/
theorem C4_bpm_marker_invariant (st : TimelineState) (o : OtherObject) :
    (((st.data.otherObjects.filter (fun x => x.isBPM)).length = 1 ∧
        o ∈ st.data.otherObjects ∧ o.isBPM = true) →
      ((removeOtherObject st o).data.otherObjects.filter (fun x => x.isBPM) = [replacementBPM] ∧
        replacementBPM.value = 120 ∧ replacementBPM.measureIndex = 0 ∧
        replacementBPM.measurePosition = ⟨0, 1⟩)) ∧
    (st.data.otherObjects.any (fun x => x.isBPM) = true →
      ((addOtherObject st o).data.otherObjects.any (fun x => x.isBPM) = true ∧
        (removeOtherObject st o).data.otherObjects.any (fun x => x.isBPM) = true)) := by
  have hrepl : replacementBPM.isBPM = true := rfl
  constructor
  · rintro ⟨hlen, hmem, hbpm⟩
    obtain ⟨x, hx⟩ := List.length_eq_one.mp hlen
    have ho : o = x := by
      have : o ∈ st.data.otherObjects.filter (fun x => x.isBPM) :=
        List.mem_filter.mpr ⟨hmem, hbpm⟩
      rw [hx] at this
      simpa using this
    subst ho
    have hnone : (st.data.otherObjects.filter (fun x => decide (x ≠ o))).any
        (fun x => x.isBPM) = false := by
      rw [List.any_eq_false]
      intro b hb
      rw [List.mem_filter, decide_eq_true_eq] at hb
      intro hbB
      have : b ∈ st.data.otherObjects.filter (fun x => x.isBPM) :=
        List.mem_filter.mpr ⟨hb.1, hbB⟩
      rw [hx] at this
      simp at this
      exact hb.2 this
    refine ⟨?_, rfl, rfl, rfl⟩
    have hfilnil : (st.data.otherObjects.filter (fun x => decide (x ≠ o))).filter
        (fun x => x.isBPM) = [] := by
      rw [List.filter_eq_nil_iff]
      intro b hb
      rw [List.any_eq_false] at hnone
      exact fun hbB => (hnone b hb) hbB
    simp only [removeOtherObject, hbpm, eq_self_iff_true, if_true, hnone,
      Bool.false_eq_true, if_false, addOtherObject, hrepl,
      calculateTime_otherObjects]
    rw [List.filter_append, hfilnil]
    simp [hrepl]
  · intro hsome
    constructor
    · by_cases hbpm : o.isBPM = true
      · simp only [addOtherObject, hbpm, eq_self_iff_true, if_true,
          calculateTime_otherObjects, List.any_append]
        simp [hsome]
      · simp only [Bool.not_eq_true] at hbpm
        simp only [addOtherObject, hbpm, Bool.false_eq_true, if_false, List.any_append]
        simp [hsome]
    · by_cases hbpm : o.isBPM = true
      · by_cases hrem : ((st.data.otherObjects.filter (fun x => decide (x ≠ o))).any
            (fun x => x.isBPM)) = true
        · simp only [removeOtherObject, hbpm, eq_self_iff_true, if_true, hrem,
            calculateTime_otherObjects]
        · simp only [Bool.not_eq_true] at hrem
          simp only [removeOtherObject, hbpm, eq_self_iff_true, if_true, hrem,
            Bool.false_eq_true, if_false, addOtherObject, hrepl,
            calculateTime_otherObjects, List.any_append]
          simp [hrem, hrepl]
      · simp only [Bool.not_eq_true] at hbpm
        simp only [removeOtherObject, hbpm, Bool.false_eq_true, if_false]
        obtain ⟨b, hb, hbB⟩ := List.any_eq_true.mp hsome
        rw [List.any_eq_true]
        refine ⟨b, ?_, hbB⟩
        rw [List.mem_filter, decide_eq_true_eq]
        refine ⟨hb, fun hbo => ?_⟩
        rw [hbo, hbpm] at hbB
        exact Bool.false_ne_true hbB

/-- Evaluation of `getNotePointInfo` on the sample cache: at horizontal
`hnum/4` the x-coordinate is `10 + 20·hnum` (20 is one sub-lane column). -/
theorem gnpi_sample_eval (hnum : ℤ) :
    getNotePointInfo sampleCache sampleLane measure0 ⟨hnum, 4⟩ ⟨0, 1⟩ =
      some ⟨⟨10 + 20 * (hnum : ℚ), 50⟩, 20⟩ := by
  norm_num [getNotePointInfo, cacheLines, sampleCache, sampleLane, sampleLine, measure0,
    List.find?, Fraction.to01, lerp, inverseLerp]
  constructor
  · ring
  · ring

/-- C8 (counterexample): with a cached segment for which `getNotePointInfo`
returns `{point:(10,50), width:20}` at horizontal 0/4, the same query at
horizontal 1/4 does not return an x-coordinate `width/4 = 5` larger — the
claimed x of 15 is wrong (the actual x is 30). -/
theorem C8_counterexample :
    getNotePointInfo sampleCache sampleLane measure0 ⟨0, 4⟩ ⟨0, 1⟩ =
      some ⟨⟨10, 50⟩, 20⟩ ∧
    (getNotePointInfo sampleCache sampleLane measure0 ⟨1, 4⟩ ⟨0, 1⟩).map
        (fun r => r.point.x) ≠ some (10 + 20 / 4) := by
  have h0 := gnpi_sample_eval 0
  have h1 := gnpi_sample_eval 1
  norm_num at h0 h1
  refine ⟨h0, ?_⟩
  rw [h1]
  intro hcontra
  simp only [Option.map_some', Option.some.injEq] at hcontra
  norm_num at hcontra

/-- C8 (amended): advancing the horizontal position from 0/4 to 1/4 with the
same lane, measure and vertical position moves the returned x-coordinate by
exactly the returned `width` (one sub-lane column, i.e. the full interpolated
lane width divided by 4), and keeps the width and y unchanged. -/
theorem C8_horizontal_step_adds_returned_width (cache : LinesCache) (lane : Lane)
    (measure : Measure) (vertical : Fraction) (r : LinePointInfo)
    (h : getNotePointInfo cache lane measure ⟨0, 4⟩ vertical = some r) :
    getNotePointInfo cache lane measure ⟨1, 4⟩ vertical =
      some ⟨⟨r.point.x + r.width, r.point.y⟩, r.width⟩ := by
  simp only [getNotePointInfo] at h ⊢
  cases hfind : (cacheLines cache lane).find? (fun line =>
      decide (line.measure = measure ∧
        measure.y + measure.height * (1 - Fraction.to01 vertical) ≤ line.start.point.y ∧
        line.stop.point.y ≤ measure.y + measure.height * (1 - Fraction.to01 vertical))) with
  | none =>
    rw [hfind] at h
    exact absurd h (by simp)
  | some tl =>
    rw [hfind] at h
    dsimp only at h ⊢
    rw [Option.some.injEq] at h ⊢
    subst h
    simp only [LinePointInfo.mk.injEq, Vector2.mk.injEq]
    refine ⟨⟨?_, trivial⟩, ?_⟩
    · simp only [lerp, Fraction.to01]
      push_cast
      ring
    · simp only [lerp, Fraction.to01]
      push_cast
      ring

theorem C8_witness :
    getNotePointInfo sampleCache sampleLane measure0 ⟨0, 4⟩ ⟨0, 1⟩ =
      some ⟨⟨10, 50⟩, 20⟩ ∧
    getNotePointInfo sampleCache sampleLane measure0 ⟨1, 4⟩ ⟨0, 1⟩ =
      some ⟨⟨10 + 20, 50⟩, 20⟩ := by
  have h0 := gnpi_sample_eval 0
  norm_num at h0
  refine ⟨h0, ?_⟩
  have h := C8_horizontal_step_adds_returned_width sampleCache sampleLane measure0 ⟨0, 1⟩
    ⟨⟨10, 50⟩, 20⟩ h0
  norm_num at h ⊢
  exact h

/-- The y-coordinate `getNotePointInfo` returns is exactly the queried
y-coordinate computed from the vertical fraction. -/
theorem getNotePointInfo_point_y (cache : LinesCache) (lane : Lane) (measure : Measure)
    (horizontal vertical : Fraction) (d : LinePointInfo)
    (h : getNotePointInfo cache lane measure horizontal vertical = some d) :
    d.point.y = measure.y + measure.height * (1 - vertical.to01) := by
  simp only [getNotePointInfo] at h
  cases hfind : (cacheLines cache lane).find? (fun line =>
      decide (line.measure = measure ∧
        measure.y + measure.height * (1 - Fraction.to01 vertical) ≤ line.start.point.y ∧
        line.stop.point.y ≤ measure.y + measure.height * (1 - Fraction.to01 vertical))) with
  | none =>
    rw [hfind] at h
    exact absurd h (by simp)
  | some tl =>
    rw [hfind] at h
    dsimp only at h
    rw [Option.some.injEq] at h
    subst h
    rfl

/-- C7: when the mouse y-coordinate lies exactly on the boundary line of the
measure (the row with verticalIndex = divisionCount scanned by the hit test),
a successful `getNotePointInfoFromMousePosition` resolves the hit to the
next measure with `verticalIndex = divisionCount - 1`, not to the current
measure. -/
theorem C7_boundary_row_resolves_to_next_measure (cache : LinesCache) (lane : Lane)
    (measure nextMeasure : Measure) (measureDivision : ℕ) (mousePosition : Vector2)
    (mode : Bool) (r : NotePointInfo)
    (hH : 0 < measure.height) (hN : 1 ≤ measureDivision)
    (hy : mousePosition.y = measure.y)
    (hr : getNotePointInfoFromMousePosition cache lane measure nextMeasure measureDivision
            mousePosition mode = some r) :
    r.measureIndex = nextMeasure.index ∧ r.verticalIndex = measureDivision - 1 := by
  simp only [getNotePointInfoFromMousePosition] at hr
  cases hfind : (hitCells lane.division measureDivision mode).find? (fun c =>
      match getNotePointInfo cache lane measure ⟨c.1, (lane.division : ℤ)⟩
          ⟨(c.2 : ℤ), (measureDivision : ℤ)⟩ with
      | none => false
      | some d => decide (d.point.x ≤ mousePosition.x ∧
          mousePosition.x < d.point.x + d.width ∧
          d.point.y - measure.height / (measureDivision : ℚ) / 2 ≤ mousePosition.y ∧
          mousePosition.y < d.point.y + measure.height / (measureDivision : ℚ) / 2)) with
  | none =>
    rw [hfind] at hr
    exact absurd hr (by simp)
  | some c =>
    obtain ⟨i, j⟩ := c
    have hj : j < measureDivision + 1 := by
      have hmem := List.mem_of_find?_eq_some hfind
      simp only [hitCells, List.mem_flatMap, List.mem_map, List.mem_range,
        Prod.mk.injEq] at hmem
      obtain ⟨a, ⟨k, hk, hak⟩, jj, hjj, ha, hjeq⟩ := hmem
      exact hjeq ▸ hjj
    have hp := List.find?_some hfind
    have hjN : j = measureDivision := by
      dsimp only at hp
      cases hd : getNotePointInfo cache lane measure ⟨i, (lane.division : ℤ)⟩
          ⟨(j : ℤ), (measureDivision : ℤ)⟩ with
      | none => rw [hd] at hp; exact absurd hp (by simp)
      | some d =>
        rw [hd] at hp
        rw [decide_eq_true_eq] at hp
        obtain ⟨hx1, hx2, hy1, hy2⟩ := hp
        have hdy := getNotePointInfo_point_y cache lane measure _ _ d hd
        have hto : Fraction.to01 ⟨(j : ℤ), (measureDivision : ℤ)⟩ =
            (j : ℚ) / (measureDivision : ℚ) := by
          simp [Fraction.to01]
        rw [hdy, hto, hy] at hy1
        by_contra hne
        have hjlt : j < measureDivision := lt_of_le_of_ne (Nat.lt_succ_iff.mp hj) hne
        have h1 : (j : ℚ) + 1 ≤ (measureDivision : ℚ) := by exact_mod_cast hjlt
        have hn : (0 : ℚ) < (measureDivision : ℚ) := by
          exact_mod_cast Nat.lt_of_lt_of_le Nat.zero_lt_one hN
        set H := measure.height with hHdef
        set n := ((measureDivision : ℚ)) with hndef
        set q := ((j : ℚ)) with hqdef
        have hclear : H * (n - q) * 2 ≤ H := by
          have hne0 : n ≠ 0 := ne_of_gt hn
          have hident : H * (n - q) * 2 = ((measure.y + H * (1 - q / n) - H / n / 2) - measure.y) * (2 * n) + H := by
            field_simp
            ring
          rw [hident]
          nlinarith [hy1, hn]
        nlinarith [hclear, h1, hH, mul_nonneg (le_of_lt hH) (by linarith : (0:ℚ) ≤ n - q - 1)]
    subst hjN
    rw [hfind] at hr
    dsimp only at hr
    rw [if_pos rfl] at hr
    rw [Option.some.injEq] at hr
    subst hr
    exact ⟨rfl, rfl⟩

theorem C7_witness :
    (0 : ℚ) < measure0.height ∧ 1 ≤ 1 ∧ (Vector2.mk 5 0).y = measure0.y ∧
    getNotePointInfoFromMousePosition cacheC7 sampleLane measure0 measure1 1 ⟨5, 0⟩ false =
      some ⟨sampleLane, none, 0, 0, 1⟩ ∧
    ((⟨sampleLane, none, 0, 0, 1⟩ : NotePointInfo).measureIndex = measure1.index ∧
      (⟨sampleLane, none, 0, 0, 1⟩ : NotePointInfo).verticalIndex = 1 - 1) := by
  have hr : getNotePointInfoFromMousePosition cacheC7 sampleLane measure0 measure1 1 ⟨5, 0⟩ false =
      some ⟨sampleLane, none, 0, 0, 1⟩ := by
    norm_num [getNotePointInfoFromMousePosition, hitCells, getNotePointInfo, cacheLines,
      cacheC7, sampleLane, line7, measure0, measure1, Fraction.to01, lerp, inverseLerp,
      List.find?, List.range, List.flatMap]
  refine ⟨by norm_num [measure0], le_refl 1, rfl, hr, ?_⟩
  exact C7_boundary_row_resolves_to_next_measure cacheC7 sampleLane measure0 measure1 1
    ⟨5, 0⟩ false ⟨sampleLane, none, 0, 0, 1⟩ (by norm_num [measure0]) (le_refl 1) rfl hr

/-! ## Lemmas towards the idempotence of `optimizeLane`. -/

theorem setLanes_data_lanes (st : TimelineState) (lanes : List Lane) :
    (setLanes st lanes).data.lanes = lanes := rfl

theorem setLanes_data_lanePoints (st : TimelineState) (lanes : List Lane) :
    (setLanes st lanes).data.lanePoints = st.data.lanePoints := rfl

theorem setLanes_laneMap (st : TimelineState) (lanes : List Lane) :
    (setLanes st lanes).laneMap = lanes.map (fun l => (l.guid, l)) := rfl

/-- What a successful `findMergePair` guarantees: valid distinct indices and
the shared-endpoint condition. -/
theorem findMergePair_spec (lanes : List Lane) (i j : ℕ)
    (h : findMergePair lanes = some (i, j)) :
    i < lanes.length ∧ j < lanes.length ∧ j ≠ i ∧
      ((lanes.get? j).bind (fun l => l.points.head?) =
       (lanes.get? i).bind (fun l => l.points.getLast?)) := by
  obtain ⟨a, ha, hfa⟩ := List.exists_of_findSome?_eq_some h
  rw [List.mem_range] at ha
  cases hfind : (List.range lanes.length).find? (fun j =>
      decide (j ≠ a ∧
        ((lanes.get? j).bind (fun l => l.points.head?) =
         (lanes.get? a).bind (fun l => l.points.getLast?)))) with
  | none => rw [hfind] at hfa; exact absurd hfa (by simp)
  | some j' =>
    rw [hfind] at hfa
    rw [Option.map_some', Option.some.injEq, Prod.mk.injEq] at hfa
    obtain ⟨hai, hjj⟩ := hfa
    subst hai; subst hjj
    have hj' := List.mem_of_find?_eq_some hfind
    rw [List.mem_range] at hj'
    have hp := List.find?_some hfind
    rw [decide_eq_true_eq] at hp
    exact ⟨ha, hj', hp.1, hp.2⟩

/-- Inversion of a successful `mergeStep`. -/
theorem mergeStep_some_inv (st st' : TimelineState) (h : mergeStep st = some st') :
    ∃ i j lane nextLane,
      findMergePair st.data.lanes = some (i, j) ∧
      st.data.lanes.get? i = some lane ∧
      st.data.lanes.get? j = some nextLane ∧
      i < st.data.lanes.length ∧ j < st.data.lanes.length ∧ j ≠ i ∧
      nextLane.points.head? = lane.points.getLast? ∧
      st' = setLanes
        { st with
          data := { st.data with notes := st.data.notes.map (fun n =>
            if n.lane = nextLane.guid then { n with lane := lane.guid } else n) },
          noteMap := st.noteMap.map (fun p => (p.1, if p.2.lane = nextLane.guid
            then { p.2 with lane := lane.guid } else p.2)) }
        ((st.data.lanes.set i { lane with points := lane.points ++ nextLane.points.drop 1 }).eraseIdx j) := by
  unfold mergeStep at h
  cases hfm : findMergePair st.data.lanes with
  | none => rw [hfm] at h; exact absurd h (by simp)
  | some pr =>
    obtain ⟨i, j⟩ := pr
    rw [hfm] at h
    obtain ⟨hi, hj, hne, hlink⟩ := findMergePair_spec st.data.lanes i j hfm
    cases hgi : st.data.lanes.get? i with
    | none =>
      rw [List.get?_eq_none] at hgi
      omega
    | some lane =>
      cases hgj : st.data.lanes.get? j with
      | none =>
        rw [List.get?_eq_none] at hgj
        omega
      | some nextLane =>
        dsimp only at h
        rw [hgi, hgj] at h hlink
        dsimp only at h
        rw [Option.some.injEq] at h
        exact ⟨i, j, lane, nextLane, rfl, hgi, hgj, hi, hj, hne, by simpa using hlink, h.symm⟩

theorem list_map_eq_self (l : List α) (f : α → α) (h : ∀ a ∈ l, f a = a) :
    l.map f = l := by
  induction l with
  | nil => rfl
  | cons x xs ih =>
    rw [List.map_cons, h x (by simp), ih (fun a ha => h a (by simp [ha]))]

theorem mergeStep_lanes_length (st st' : TimelineState) (h : mergeStep st = some st') :
    st'.data.lanes.length + 1 = st.data.lanes.length := by
  obtain ⟨i, j, lane, nextLane, _, _, _, _, hj, _, _, hst'⟩ := mergeStep_some_inv st st' h
  subst hst'
  rw [setLanes_data_lanes, List.length_eraseIdx, List.length_set, if_pos hj]
  omega

theorem mergeLoop_eq_self_of_none (st : TimelineState) (h : mergeStep st = none) :
    ∀ n, mergeLoop n st = st := by
  intro n
  cases n with
  | zero => rfl
  | succ m => simp [mergeLoop, h]

theorem mergeStep_mergeLoop_none (n : ℕ) :
    ∀ st : TimelineState, st.data.lanes.length < n → mergeStep (mergeLoop n st) = none := by
  induction n with
  | zero => intro st h; omega
  | succ m ih =>
    intro st h
    cases hms : mergeStep st with
    | none => rw [mergeLoop, hms]; exact hms
    | some st' =>
      rw [mergeLoop, hms]
      refine ih st' ?_
      have := mergeStep_lanes_length st st' hms
      omega

theorem sortPhase_lanesSorted (st : TimelineState) : LanesSorted (sortPhase st) := by
  constructor
  · intro l hl
    simp only [sortPhase, List.mem_map] at hl
    obtain ⟨l₀, _, rfl⟩ := hl
    exact keySorted_stableSortBy _ _
  · intro p hp
    simp only [sortPhase, List.mem_map] at hp
    obtain ⟨p₀, _, rfl⟩ := hp
    exact keySorted_stableSortBy _ _

/-- Merging two sorted point lists that share the merge endpoint stays
sorted: the surviving lane's last point guid equals the absorbed lane's first
point guid, so the keys chain across the append. -/
theorem keySorted_merge (key : String → ℚ) (a b : List String)
    (ha : KeySorted key a) (hb : KeySorted key b) (hlink : b.head? = a.getLast?) :
    KeySorted key (a ++ b.drop 1) := by
  cases b with
  | nil => simpa [KeySorted] using ha
  | cons g rest =>
    rw [List.head?_cons] at hlink
    rw [KeySorted, List.chain'_append]
    refine ⟨ha, ?_, ?_⟩
    · rw [KeySorted, List.chain'_cons'] at hb
      simpa [KeySorted] using hb.2
    · intro x hx y hy
      have hxg : g = x := by
        rw [← hlink] at hx
        simpa using hx
      subst hxg
      rw [KeySorted, List.chain'_cons'] at hb
      exact hb.1 y (by simpa using hy)

theorem mergeStep_preserves_lanesSorted (st st' : TimelineState)
    (h : mergeStep st = some st') (hs : LanesSorted st) : LanesSorted st' := by
  obtain ⟨i, j, lane, nextLane, _, hgi, hgj, _, _, _, hlink, hst'⟩ := mergeStep_some_inv st st' h
  have hlane : lane ∈ st.data.lanes := List.get?_mem hgi
  have hnext : nextLane ∈ st.data.lanes := List.get?_mem hgj
  have hmerged : KeySorted (lanePointKey st.data.lanePoints)
      (lane.points ++ nextLane.points.drop 1) :=
    keySorted_merge _ _ _ (hs.1 lane hlane) (hs.1 nextLane hnext) hlink
  have hall : ∀ l ∈ (st.data.lanes.set i
      { lane with points := lane.points ++ nextLane.points.drop 1 }).eraseIdx j,
      KeySorted (lanePointKey st.data.lanePoints) l.points := by
    intro l hl
    have hl' := List.eraseIdx_subset _ _ hl
    rcases List.mem_or_eq_of_mem_set hl' with hmem | rfl
    · exact hs.1 l hmem
    · exact hmerged
  subst hst'
  constructor
  · intro l hl
    rw [setLanes_data_lanes] at hl
    rw [setLanes_data_lanePoints]
    exact hall l hl
  · intro p hp
    rw [setLanes_laneMap, List.mem_map] at hp
    obtain ⟨l₀, hl₀, rfl⟩ := hp
    rw [setLanes_data_lanePoints]
    exact hall l₀ hl₀

theorem mergeLoop_preserves_lanesSorted (n : ℕ) :
    ∀ st : TimelineState, LanesSorted st → LanesSorted (mergeLoop n st) := by
  induction n with
  | zero => intro st hs; exact hs
  | succ m ih =>
    intro st hs
    cases hms : mergeStep st with
    | none => rw [mergeLoop, hms]; exact hs
    | some st' =>
      rw [mergeLoop, hms]
      exact ih st' (mergeStep_preserves_lanesSorted st st' hms hs)

theorem sortPhase_eq_self (st : TimelineState) (hs : LanesSorted st) :
    sortPhase st = st := by
  have h1 : st.data.lanes.map (sortLanePoints st.data.lanePoints) = st.data.lanes := by
    refine list_map_eq_self _ _ (fun l hl => ?_)
    rw [sortLanePoints, stableSortBy_eq_self _ _ (hs.1 l hl)]
  have h2 : st.laneMap.map (fun p => (p.1, sortLanePoints st.data.lanePoints p.2)) =
      st.laneMap := by
    refine list_map_eq_self _ _ (fun p hp => ?_)
    rw [sortLanePoints, stableSortBy_eq_self _ _ (hs.2 p hp)]
  simp only [sortPhase, h1, h2]

/-- C6: `optimizeLane` is idempotent — running it a second time changes
nothing: the lanes are already point-sorted, so the sorting phase is the
identity, and the merge loop exited only when no merge pair was left. -/
theorem C6_optimizeLane_idempotent (st : TimelineState) :
    optimizeLane (optimizeLane st) = optimizeLane st := by
  have hsorted : LanesSorted (optimizeLane st) :=
    mergeLoop_preserves_lanesSorted _ _ (sortPhase_lanesSorted st)
  have hnone : mergeStep (optimizeLane st) = none :=
    mergeStep_mergeLoop_none _ _ (Nat.lt_succ_self _)
  rw [optimizeLane, sortPhase_eq_self _ hsorted,
    mergeLoop_eq_self_of_none _ hnone]

/-! ## Consistency of the derived indices. -/

theorem calculateTime_noteMap_consistent (st : TimelineState)
    (h : st.noteMap = st.data.notes.map (fun n => (n.guid, n))) :
    (calculateTime st).noteMap = (calculateTime st).data.notes.map (fun n => (n.guid, n)) := by
  simp only [calculateTime, h, List.map_map]
  rfl

theorem calculateTime_tcConsistent (st : TimelineState) :
    TimeCalculatorConsistent (calculateTime st) := rfl

theorem calculateTime_mapsConsistent (st : TimelineState)
    (hm : MapsConsistent st) : MapsConsistent (calculateTime st) :=
  ⟨calculateTime_noteMap_consistent _ hm.1, hm.2.1, hm.2.2⟩

theorem updateNoteMap_indicesConsistent (st : TimelineState)
    (hlp : st.lanePointMap = st.data.lanePoints.map (fun p => (p.guid, p)))
    (hlm : st.laneMap = st.data.lanes.map (fun l => (l.guid, l))) :
    IndicesConsistent (updateNoteMap st) :=
  ⟨⟨calculateTime_noteMap_consistent _ rfl, hlp, hlm⟩, calculateTime_tcConsistent _⟩

theorem updateLaneMap_indicesConsistent (st : TimelineState)
    (hnm : st.noteMap = st.data.notes.map (fun n => (n.guid, n)))
    (hlp : st.lanePointMap = st.data.lanePoints.map (fun p => (p.guid, p))) :
    IndicesConsistent (updateLaneMap st) :=
  ⟨⟨calculateTime_noteMap_consistent _ hnm, hlp, rfl⟩, calculateTime_tcConsistent _⟩

theorem toMutable_indicesConsistent (st : TimelineState) (d : TimelineData) :
    IndicesConsistent (toMutable st d) :=
  updateLaneMap_indicesConsistent _ (calculateTime_noteMap_consistent _ rfl) rfl

theorem addOtherObject_mapsConsistent (st : TimelineState) (o : OtherObject)
    (hm : MapsConsistent st) : MapsConsistent (addOtherObject st o) := by
  unfold addOtherObject
  cases hb : o.isBPM with
  | false =>
    simp only [Bool.false_eq_true, if_false]
    exact ⟨hm.1, hm.2.1, hm.2.2⟩
  | true =>
    simp only [if_true]
    exact calculateTime_mapsConsistent _ ⟨hm.1, hm.2.1, hm.2.2⟩

theorem addOtherObject_tcConsistent (st : TimelineState) (o : OtherObject)
    (hb : o.isBPM = true) : TimeCalculatorConsistent (addOtherObject st o) := by
  unfold addOtherObject
  rw [hb]
  simp only [if_true]
  exact calculateTime_tcConsistent _

theorem removeOtherObject_mapsConsistent (st : TimelineState) (o : OtherObject)
    (hm : MapsConsistent st) : MapsConsistent (removeOtherObject st o) := by
  unfold removeOtherObject
  cases hb : o.isBPM with
  | false =>
    simp only [Bool.false_eq_true, if_false]
    exact ⟨hm.1, hm.2.1, hm.2.2⟩
  | true =>
    simp only [if_true]
    split
    · exact calculateTime_mapsConsistent _ ⟨hm.1, hm.2.1, hm.2.2⟩
    · exact calculateTime_mapsConsistent _
        (addOtherObject_mapsConsistent _ _ ⟨hm.1, hm.2.1, hm.2.2⟩)

theorem removeOtherObject_tcConsistent (st : TimelineState) (o : OtherObject)
    (hb : o.isBPM = true) : TimeCalculatorConsistent (removeOtherObject st o) := by
  unfold removeOtherObject
  rw [hb]
  simp only [if_true]
  exact calculateTime_tcConsistent _

theorem undo_indicesConsistent (st st' : TimelineState) (h : undo st = some st')
    (hc : IndicesConsistent st) : IndicesConsistent st' := by
  unfold undo at h
  cases hcu : st.canUndo with
  | false =>
    rw [hcu] at h
    simp only [Bool.not_false, if_true, Option.some.injEq] at h
    subst h
    exact hc
  | true =>
    rw [hcu] at h
    simp only [Bool.not_true, Bool.false_eq_true, if_false] at h
    cases hg : st.histories.get? (st.historyIndex - 1) with
    | none => rw [hg] at h; exact absurd h (by simp)
    | some hist =>
      rw [hg] at h
      dsimp only at h
      cases hp : patchApply st.prevData hist.redoPatch with
      | none => rw [hp] at h; exact absurd h (by simp)
      | some d =>
        rw [hp] at h
        dsimp only at h
        rw [Option.some.injEq] at h
        subst h
        exact toMutable_indicesConsistent _ _

theorem redo_indicesConsistent (st st' : TimelineState) (h : redo st = some st')
    (hc : IndicesConsistent st) : IndicesConsistent st' := by
  unfold redo at h
  cases hcr : st.canRedo with
  | false =>
    rw [hcr] at h
    simp only [Bool.not_false, if_true, Option.some.injEq] at h
    subst h
    exact hc
  | true =>
    rw [hcr] at h
    simp only [Bool.not_true, Bool.false_eq_true, if_false] at h
    cases hg : st.histories.get? (st.historyIndex + 1 - 1) with
    | none => rw [hg] at h; exact absurd h (by simp)
    | some hist =>
      rw [hg] at h
      dsimp only at h
      cases hp : patchApply st.prevData hist.undoPatch with
      | none => rw [hp] at h; exact absurd h (by simp)
      | some d =>
        rw [hp] at h
        dsimp only at h
        rw [Option.some.injEq] at h
        subst h
        exact toMutable_indicesConsistent _ _

theorem foldl_preserve (P : β → Prop) (f : β → α → β)
    (hf : ∀ b a, P b → P (f b a)) :
    ∀ (l : List α) (b : β), P b → P (l.foldl f b) := by
  intro l
  induction l with
  | nil => intro b hb; exact hb
  | cons x xs ih => intro b hb; exact ih _ (hf b x hb)

theorem removeNoteAux_false_auxMapsOK (st : TimelineState) (note : Note)
    (h : AuxMapsOK st) : AuxMapsOK (removeNoteAux st note false) := h

theorem sortPhase_auxMapsOK (st : TimelineState) (h : AuxMapsOK st) :
    AuxMapsOK (sortPhase st) := by
  refine ⟨h.1, ?_⟩
  show st.laneMap.map (fun p => (p.1, sortLanePoints st.data.lanePoints p.2)) =
    (st.data.lanes.map (sortLanePoints st.data.lanePoints)).map (fun l => (l.guid, l))
  rw [h.2, List.map_map, List.map_map]
  rfl

theorem mergeStep_auxMapsOK (st st' : TimelineState) (h : mergeStep st = some st')
    (hA : AuxMapsOK st) : AuxMapsOK st' := by
  obtain ⟨i, j, lane, nextLane, _, _, _, _, _, _, _, hst'⟩ := mergeStep_some_inv st st' h
  subst hst'
  exact ⟨hA.1, rfl⟩

theorem mergeLoop_auxMapsOK (n : ℕ) :
    ∀ st : TimelineState, AuxMapsOK st → AuxMapsOK (mergeLoop n st) := by
  induction n with
  | zero => intro st hs; exact hs
  | succ m ih =>
    intro st hs
    cases hms : mergeStep st with
    | none => rw [mergeLoop, hms]; exact hs
    | some st' =>
      rw [mergeLoop, hms]
      exact ih st' (mergeStep_auxMapsOK st st' hms hs)

theorem optimizeLane_auxMapsOK (st : TimelineState) (h : AuxMapsOK st) :
    AuxMapsOK (optimizeLane st) :=
  mergeLoop_auxMapsOK _ _ (sortPhase_auxMapsOK st h)

theorem optimizeNoteLine_auxMapsOK (st : TimelineState) (h : AuxMapsOK st) :
    AuxMapsOK (optimizeNoteLine st) := h

theorem optimizeNoteLineStep_auxMapsOK (acc : TimelineState × List String) (nl : NoteLine)
    (h : AuxMapsOK acc.1) : AuxMapsOK (optimizeNoteLineStep acc nl).1 := by
  unfold optimizeNoteLineStep
  refine foldl_preserve (fun x : TimelineState × List String => AuxMapsOK x.1) _ ?_ _ _ h
  intro b a hb
  dsimp only
  split
  · exact removeNoteAux_false_auxMapsOK _ _ hb
  · exact hb

theorem optimizeNoteZeroSizeStep_auxMapsOK (inner : List String) (s : TimelineState)
    (note : Note) (h : AuxMapsOK s) : AuxMapsOK (optimizeNoteZeroSizeStep inner s note) := by
  unfold optimizeNoteZeroSizeStep
  split
  · exact removeNoteAux_false_auxMapsOK _ _ h
  · exact h

theorem optimizeNote_indicesConsistent (st : TimelineState) (h : AuxMapsOK st) :
    IndicesConsistent (optimizeNote st) := by
  unfold optimizeNote
  have h1 : AuxMapsOK (st.data.noteLines.foldl optimizeNoteLineStep (st, [])).1 :=
    foldl_preserve (fun x : TimelineState × List String => AuxMapsOK x.1) optimizeNoteLineStep
      (fun b a hb => optimizeNoteLineStep_auxMapsOK b a hb) _ _ h
  have h2 : AuxMapsOK ((st.data.noteLines.foldl optimizeNoteLineStep (st, [])).1.data.notes.foldl
      (optimizeNoteZeroSizeStep (st.data.noteLines.foldl optimizeNoteLineStep (st, [])).2)
      (st.data.noteLines.foldl optimizeNoteLineStep (st, [])).1) :=
    foldl_preserve AuxMapsOK _
      (fun b a hb => optimizeNoteZeroSizeStep_auxMapsOK _ b a hb) _ _ h1
  exact updateNoteMap_indicesConsistent _ h2.1 h2.2

theorem optimize_indicesConsistent (st : TimelineState) (h : IndicesConsistent st) :
    IndicesConsistent (optimize st) := by
  unfold optimize
  refine optimizeNote_indicesConsistent _ ?_
  exact optimizeNoteLine_auxMapsOK _ (optimizeLane_auxMapsOK _ ⟨h.1.2.1, h.1.2.2⟩)

/-- C5 (amended): if all derived indices are consistent, then after every
public mutating operation the three guid maps are again consistent with
their backing collections, and so is the TimeCalculator — except after
`addOtherObject`/`removeOtherObject` with a non-BPM object, which skip the
time recalculation and leave the previously built TimeCalculator in place. -/
theorem C5_amended_indices_consistency (st : TimelineState)
    (h : IndicesConsistent st) :
    (∀ n : Note, IndicesConsistent (addNote st n)) ∧
    (∀ n : Note, IndicesConsistent (removeNote st n)) ∧
    (∀ nl : NoteLine, IndicesConsistent (addNoteLine st nl)) ∧
    (∀ nl : NoteLine, IndicesConsistent (removeNoteLine st nl)) ∧
    (∀ o : OtherObject, MapsConsistent (addOtherObject st o) ∧
      (o.isBPM = true → TimeCalculatorConsistent (addOtherObject st o)) ∧
      (o.isBPM = false → (addOtherObject st o).timeCalculator = st.timeCalculator)) ∧
    (∀ o : OtherObject, MapsConsistent (removeOtherObject st o) ∧
      (o.isBPM = true → TimeCalculatorConsistent (removeOtherObject st o)) ∧
      (o.isBPM = false → (removeOtherObject st o).timeCalculator = st.timeCalculator)) ∧
    (∀ lane : Lane, IndicesConsistent (addLane st lane)) ∧
    (∀ lanes : List Lane, IndicesConsistent (setLanes st lanes)) ∧
    (∀ p : LanePoint, IndicesConsistent (addLanePoint st p)) ∧
    IndicesConsistent (optimize st) ∧
    (∀ st', undo st = some st' → IndicesConsistent st') ∧
    (∀ st', redo st = some st' → IndicesConsistent st') := by
  obtain ⟨⟨hnm, hlp, hlm⟩, htc⟩ := h
  refine ⟨?_, ?_, ?_, ?_, ?_, ?_, ?_, ?_, ?_, ?_, ?_, ?_⟩
  · intro n
    exact updateNoteMap_indicesConsistent _ hlp hlm
  · intro n
    exact updateNoteMap_indicesConsistent _ hlp hlm
  · intro nl
    exact ⟨⟨hnm, hlp, hlm⟩, htc⟩
  · intro nl
    exact ⟨⟨hnm, hlp, hlm⟩, htc⟩
  · intro o
    refine ⟨addOtherObject_mapsConsistent _ _ ⟨hnm, hlp, hlm⟩,
      fun hb => addOtherObject_tcConsistent _ _ hb, fun hb => ?_⟩
    unfold addOtherObject
    rw [hb]
    simp only [Bool.false_eq_true, if_false]
  · intro o
    refine ⟨removeOtherObject_mapsConsistent _ _ ⟨hnm, hlp, hlm⟩,
      fun hb => removeOtherObject_tcConsistent _ _ hb, fun hb => ?_⟩
    unfold removeOtherObject
    rw [hb]
    simp only [Bool.false_eq_true, if_false]
  · intro lane
    exact updateLaneMap_indicesConsistent _ hnm hlp
  · intro lanes
    exact updateLaneMap_indicesConsistent _ hnm hlp
  · intro p
    exact ⟨⟨hnm, rfl, hlm⟩, htc⟩
  · exact optimize_indicesConsistent st ⟨⟨hnm, hlp, hlm⟩, htc⟩
  · intro st' hu
    exact undo_indicesConsistent st st' hu ⟨⟨hnm, hlp, hlm⟩, htc⟩
  · intro st' hr
    exact redo_indicesConsistent st st' hr ⟨⟨hnm, hlp, hlm⟩, htc⟩

theorem insertSorted_length (key : α → ℚ) (x : α) :
    ∀ l : List α, (insertSorted key x l).length = l.length + 1 := by
  intro l
  induction l with
  | nil => rfl
  | cons y ys ih =>
    rw [insertSorted]
    split
    · rfl
    · simp only [List.length_cons, ih]

theorem stableSortBy_length (key : α → ℚ) :
    ∀ l : List α, (stableSortBy key l).length = l.length := by
  intro l
  induction l with
  | nil => rfl
  | cons x xs ih =>
    rw [stableSortBy, insertSorted_length, ih, List.length_cons]

/-- C5 (counterexample): in a state whose indices are all consistent, adding
a non-BPM OtherObject (a speed marker) leaves the TimeCalculator built from
the old marker list — a stale derived index observable right after the
mutating operation returns. -/
theorem C5_counterexample :
    IndicesConsistent c5State ∧
    ¬ TimeCalculatorConsistent (addOtherObject c5State speedTwo) := by
  refine ⟨⟨⟨rfl, rfl, rfl⟩, ?_⟩, ?_⟩
  · rfl
  · intro h
    have hobj := congrArg (fun tc => tc.objects.length) h
    dsimp only at hobj
    rw [stableSortBy_length] at hobj
    exact absurd hobj (by decide)

theorem C5_witness :
    IndicesConsistent c5State ∧ IndicesConsistent (addNoteLine c5State lineAB) :=
  ⟨⟨⟨rfl, rfl, rfl⟩, rfl⟩,
   (C5_amended_indices_consistency c5State ⟨⟨rfl, rfl, rfl⟩, rfl⟩).2.2.1 lineAB⟩

/-! ## Lemmas towards the history round-trip law. -/

theorem to01_reduce (f : Fraction) : f.reduce.to01 = f.to01 := by
  obtain ⟨num, den⟩ := f
  simp only [Fraction.reduce]
  split
  · rfl
  · rename_i hg
    have hdvd1 : ((Int.gcd num den : ℕ) : ℤ) ∣ num := Int.gcd_dvd_left
    have hdvd2 : ((Int.gcd num den : ℕ) : ℤ) ∣ den := Int.gcd_dvd_right
    have hgQ : ((Int.gcd num den : ℕ) : ℚ) ≠ 0 := by
      exact_mod_cast hg
    unfold Fraction.to01
    dsimp only
    rw [Int.cast_div_charZero hdvd1, Int.cast_div_charZero hdvd2]
    push_cast
    rcases eq_or_ne ((den : ℚ)) 0 with hd | hd
    · rw [hd, zero_div, div_zero, div_zero]
    · field_simp

/-- A note's chart position is invariant under normalization. -/
theorem getMeasurePosition_normalize (n : Note) :
    n.normalize.getMeasurePosition = n.getMeasurePosition := by
  unfold Note.normalize Note.getMeasurePosition
  dsimp only
  rw [to01_reduce]

theorem toMutable_data (st : TimelineState) (x : TimelineData) :
    (toMutable st x).data = dataReload x := by
  simp only [toMutable, updateLaneMap, updateLanePointMap, updateNoteMap, calculateTime,
    dataReload, List.map_map]
  congr 1

theorem dataReload_idem (x : TimelineData) : dataReload (dataReload x) = dataReload x := by
  simp only [dataReload, List.map_map]
  congr 1

/-- Reloading the normalized reload of a state is the identity: judgment
times recompute to themselves because normalization does not move the chart
position. -/
theorem dataReload_normalize_fix (x : TimelineData) :
    dataReload { dataReload x with notes := (dataReload x).notes.map Note.normalize } =
      { dataReload x with notes := (dataReload x).notes.map Note.normalize } := by
  simp only [dataReload, List.map_map]
  congr 1
  refine List.map_congr_left fun n _ => ?_
  simp [Note.normalize, Note.getMeasurePosition, to01_reduce]

theorem timelineNew_data (d : TimelineData) :
    (timelineNew d).data =
      { dataReload d with notes := (dataReload d).notes.map Note.normalize } := by
  show (normalizeNotes (toMutable (initialTimelineState d) d)).data = _
  show { (toMutable (initialTimelineState d) d).data with
    notes := (toMutable (initialTimelineState d) d).data.notes.map Note.normalize } = _
  rw [toMutable_data]

theorem dataReload_timelineNew (d : TimelineData) :
    dataReload (timelineNew d).data = (timelineNew d).data := by
  rw [timelineNew_data]
  exact dataReload_normalize_fix d

/-- The shape of a non-initial `save`. -/
theorem save_shape (st : TimelineState) (h : st.histories.length ≠ 0) :
    save st = { st with
      data := { st.data with notes := st.data.notes.map Note.normalize },
      noteMap := st.noteMap.map (fun p => (p.1, p.2.normalize)),
      histories := st.histories.take st.historyIndex ++
        [⟨patchCompare st.prevData { st.data with notes := st.data.notes.map Note.normalize },
          patchCompare { st.data with notes := st.data.notes.map Note.normalize } st.prevData⟩],
      historyIndex := st.historyIndex + 1,
      canUndo := true, canRedo := false,
      prevData := { st.data with notes := st.data.notes.map Note.normalize } } := by
  simp only [save, normalizeNotes]
  rw [if_neg h]

/-- The facts a non-initial `save` after an edit guarantees. -/
theorem save_facts (s : TimelineState) (e : TimelineData → TimelineData)
    (h1 : s.historyIndex = s.histories.length) (h2 : 1 ≤ s.historyIndex) :
    (save (editData s e)).historyIndex = s.historyIndex + 1 ∧
    (save (editData s e)).histories.length = s.historyIndex + 1 ∧
    (save (editData s e)).data = (save (editData s e)).prevData ∧
    (save (editData s e)).canUndo = true ∧
    (save (editData s e)).histories =
      s.histories ++ [⟨patchCompare s.prevData (save (editData s e)).prevData,
                       patchCompare (save (editData s e)).prevData s.prevData⟩] := by
  have hne : (editData s e).histories.length ≠ 0 := by
    show s.histories.length ≠ 0
    omega
  rw [save_shape _ hne]
  dsimp only [editData]
  refine ⟨rfl, ?_, rfl, rfl, ?_⟩
  · rw [List.length_append, List.length_take, ← h1, min_self]
    rfl
  · rw [h1, List.take_length]

theorem toMutable_historyIndex (st : TimelineState) (d : TimelineData) :
    (toMutable st d).historyIndex = st.historyIndex := rfl

theorem toMutable_prevData (st : TimelineState) (d : TimelineData) :
    (toMutable st d).prevData = st.prevData := rfl

theorem toMutable_histories (st : TimelineState) (d : TimelineData) :
    (toMutable st d).histories = st.histories := rfl

theorem toMutable_canUndo (st : TimelineState) (d : TimelineData) :
    (toMutable st d).canUndo = st.canUndo := rfl

/-- Computing one successful `undo`: the cursor entry's redo patch applies to
the snapshot and the state is reloaded from the patch's target. -/
theorem undo_step (s : TimelineState) (pre : List History) (E : History) (rest : List History)
    (hcu : s.canUndo = true)
    (hidx : s.historyIndex = pre.length + 1)
    (hh : s.histories = pre ++ E :: rest)
    (hbase : s.prevData = E.redoPatch.base) :
    undo s = some (toMutable
      { s with historyIndex := s.historyIndex - 1, prevData := E.redoPatch.target,
               canRedo := true, canUndo := decide (1 < s.historyIndex - 1),
               previouslyCreatedNote := none } E.redoPatch.target) := by
  unfold undo
  rw [hcu]
  simp only [Bool.not_true, Bool.false_eq_true, if_false]
  have hg : s.histories.get? (s.historyIndex - 1) = some E := by
    rw [hh, hidx, Nat.add_sub_cancel, List.get?_append_right (le_refl pre.length),
      Nat.sub_self]
    rfl
  rw [hg]
  dsimp only
  have hp : patchApply s.prevData E.redoPatch = some E.redoPatch.target := by
    rw [patchApply, if_pos hbase]
  rw [hp]

/-- The core induction: from a just-saved state, any further sequence of
(edit, save) blocks followed by one `undo` per block returns the cursor, the
snapshot and the history prefix to their starting values. -/
theorem processBlocks_undoTimes_restore (bs : List (TimelineData → TimelineData)) :
    ∀ s₁ : TimelineState,
      s₁.historyIndex = s₁.histories.length →
      2 ≤ s₁.historyIndex →
      s₁.canUndo = true →
      ∃ (s₂ : TimelineState) (ext : List History),
        undoTimes bs.length (processBlocks s₁ bs) = some s₂ ∧
        s₂.historyIndex = s₁.historyIndex ∧
        s₂.prevData = s₁.prevData ∧
        s₂.canUndo = true ∧
        s₂.histories = s₁.histories ++ ext := by
  induction bs with
  | nil =>
    intro s₁ h1 h2 h4
    exact ⟨s₁, [], rfl, rfl, rfl, h4, (List.append_nil _).symm⟩
  | cons e bs ih =>
    intro s₁ h1 h2 h4
    obtain ⟨hidx', hlen', hdp', hcu', hhist'⟩ := save_facts s₁ e h1 (by omega)
    obtain ⟨s₂, ext, hundo, hidx₂, hprev₂, hcu₂, hhist₂⟩ :=
      ih (save (editData s₁ e)) (by rw [hidx', hlen']) (by omega) hcu'
    have hstep := undo_step s₂ s₁.histories
      ⟨patchCompare s₁.prevData (save (editData s₁ e)).prevData,
       patchCompare (save (editData s₁ e)).prevData s₁.prevData⟩ ext hcu₂
      (by rw [hidx₂, hidx', h1])
      (by rw [hhist₂, hhist', List.append_assoc]; rfl)
      (by rw [hprev₂]; rfl)
    refine ⟨toMutable
        { s₂ with historyIndex := s₂.historyIndex - 1, prevData := s₁.prevData,
                  canRedo := true, canUndo := decide (1 < s₂.historyIndex - 1),
                  previouslyCreatedNote := none } s₁.prevData,
      ⟨patchCompare s₁.prevData (save (editData s₁ e)).prevData,
       patchCompare (save (editData s₁ e)).prevData s₁.prevData⟩ :: ext,
      ?_, ?_, ?_, ?_, ?_⟩
    · show (undoTimes bs.length (processBlocks (save (editData s₁ e)) bs)).bind undo = _
      rw [hundo]
      exact hstep
    · rw [toMutable_historyIndex]
      dsimp only
      omega
    · rw [toMutable_prevData]
    · rw [toMutable_canUndo]
      dsimp only
      have h : 1 < s₂.historyIndex - 1 := by omega
      simp [h]
    · rw [toMutable_histories]
      dsimp only
      rw [hhist₂, hhist', List.append_assoc]
      rfl

/-- C1: starting from a freshly constructed timeline, for every sequence of
`save()` calls interleaved with arbitrary edits (each block of edits followed
by its save), calling `undo()` exactly once per save restores the serialized
Timeline state (`toJS`) bit-identically to the state before those edits. -/
theorem C1_save_undo_round_trip (d : TimelineData)
    (blocks : List (TimelineData → TimelineData)) :
    ∃ st' : TimelineState,
      undoTimes blocks.length (processBlocks (timelineNew d) blocks) = some st' ∧
      st'.toJS = (timelineNew d).toJS := by
  cases blocks with
  | nil => exact ⟨timelineNew d, rfl, rfl⟩
  | cons e bs =>
    have h1 : (timelineNew d).historyIndex = 1 := rfl
    have hlen1 : (timelineNew d).histories.length = 1 := rfl
    obtain ⟨hidx', hlen', hdp', hcu', hhist'⟩ :=
      save_facts (timelineNew d) e (by rw [h1, hlen1]) (by rw [h1])
    obtain ⟨s₂, ext, hundo, hidx₂, hprev₂, hcu₂, hhist₂⟩ :=
      processBlocks_undoTimes_restore bs (save (editData (timelineNew d) e))
        (by rw [hidx', hlen']) (by rw [hidx', h1]) hcu'
    have hstep := undo_step s₂ (timelineNew d).histories
      ⟨patchCompare (timelineNew d).prevData (save (editData (timelineNew d) e)).prevData,
       patchCompare (save (editData (timelineNew d) e)).prevData (timelineNew d).prevData⟩ ext
      hcu₂
      (by rw [hidx₂, hidx', h1, hlen1])
      (by rw [hhist₂, hhist', List.append_assoc]; rfl)
      (by rw [hprev₂]; rfl)
    refine ⟨toMutable
        { s₂ with historyIndex := s₂.historyIndex - 1, prevData := (timelineNew d).prevData,
                  canRedo := true, canUndo := decide (1 < s₂.historyIndex - 1),
                  previouslyCreatedNote := none } (timelineNew d).prevData,
      ?_, ?_⟩
    · show (undoTimes bs.length
        (processBlocks (save (editData (timelineNew d) e)) bs)).bind undo = _
      rw [hundo]
      exact hstep
    · show (toMutable _ (timelineNew d).prevData).data = (timelineNew d).toJS
      rw [toMutable_data]
      show dataReload (timelineNew d).data = (timelineNew d).data
      exact dataReload_timelineNew d

theorem toMutable_canRedo (st : TimelineState) (d : TimelineData) :
    (toMutable st d).canRedo = st.canRedo := rfl

/-- Computing one successful `undo` from a cursor-entry hypothesis. -/
theorem undo_compute (s : TimelineState) (E : History)
    (hcu : s.canUndo = true)
    (hg : s.histories.get? (s.historyIndex - 1) = some E)
    (hbase : s.prevData = E.redoPatch.base) :
    undo s = some (toMutable
      { s with historyIndex := s.historyIndex - 1, prevData := E.redoPatch.target,
               canRedo := true, canUndo := decide (1 < s.historyIndex - 1),
               previouslyCreatedNote := none } E.redoPatch.target) := by
  unfold undo
  rw [hcu]
  simp only [Bool.not_true, Bool.false_eq_true, if_false]
  rw [hg]
  dsimp only
  rw [patchApply, if_pos hbase]

/-- Computing one successful `redo` from a cursor-entry hypothesis. -/
theorem redo_compute (s : TimelineState) (E : History)
    (hcr : s.canRedo = true)
    (hg : s.histories.get? (s.historyIndex + 1 - 1) = some E)
    (hbase : s.prevData = E.undoPatch.base) :
    redo s = some (toMutable
      { s with historyIndex := s.historyIndex + 1, prevData := E.undoPatch.target,
               canUndo := true, canRedo := decide (s.historyIndex + 1 < s.histories.length),
               previouslyCreatedNote := none } E.undoPatch.target) := by
  unfold redo
  rw [hcr]
  simp only [Bool.not_true, Bool.false_eq_true, if_false]
  rw [hg]
  dsimp only
  rw [patchApply, if_pos hbase]

/-- C2 (counterexample): in a reachable state with `canUndo` set but an edit
made after the last save, `undo()` then `redo()` does not restore the
serialized state — it restores the last saved snapshot, discarding the
unsaved edit. -/
theorem C2_counterexample :
    c2State.canUndo = true ∧
    ((undo c2State).bind redo).map TimelineState.toJS ≠ some c2State.toJS := by
  constructor
  · decide
  · decide

/-- C2 (amended): in a Timeline state in which `canUndo` holds, whose history
entry at the cursor links the stored snapshot both ways (as every reachable
history does), whose serialized state equals the stored snapshot (no unsaved
edits), and whose judgment times are stable under reload, `undo()` followed
immediately by `redo()` leaves the serialized state unchanged. -/
theorem C2_undo_redo_identity (st : TimelineState) (E : History)
    (hcu : st.canUndo = true)
    (hg : st.histories.get? (st.historyIndex - 1) = some E)
    (hbase : E.redoPatch.base = st.prevData)
    (hlink1 : E.undoPatch.base = E.redoPatch.target)
    (hlink2 : E.undoPatch.target = st.prevData)
    (hdp : st.data = st.prevData)
    (hfix : dataReload st.prevData = st.prevData) :
    ∃ u r, undo st = some u ∧ redo u = some r ∧ r.toJS = st.toJS := by
  have hu := undo_compute st E hcu hg hbase.symm
  have hr := redo_compute (toMutable
      { st with historyIndex := st.historyIndex - 1, prevData := E.redoPatch.target,
                canRedo := true, canUndo := decide (1 < st.historyIndex - 1),
                previouslyCreatedNote := none } E.redoPatch.target) E
    (by rw [toMutable_canRedo])
    (by
      rw [toMutable_histories, toMutable_historyIndex]
      dsimp only
      rw [Nat.add_sub_cancel]
      exact hg)
    (by
      rw [toMutable_prevData]
      dsimp only
      exact hlink1.symm)
  refine ⟨_, _, hu, hr, ?_⟩
  show (toMutable _ E.undoPatch.target).data = st.toJS
  rw [toMutable_data, hlink2, hfix]
  exact hdp.symm

theorem C2_witness :
    c2SavedState.canUndo = true ∧
    (∃ u r, undo c2SavedState = some u ∧ redo u = some r ∧
      r.toJS = c2SavedState.toJS) := by
  refine ⟨by decide, ?_⟩
  exact C2_undo_redo_identity c2SavedState
    ⟨⟨defaultTimelineData, c2Data1⟩, ⟨c2Data1, defaultTimelineData⟩⟩
    (by decide) (by decide) (by decide) (by decide) (by decide) (by decide) (by decide)

theorem C4_witness :
    ((sampleState.data.otherObjects.filter (fun x => x.isBPM)).length = 1 ∧
      bpm140 ∈ sampleState.data.otherObjects ∧ bpm140.isBPM = true) ∧
    ((removeOtherObject sampleState bpm140).data.otherObjects.filter
        (fun x => x.isBPM) = [replacementBPM]) ∧
    (addOtherObject sampleState speedTwo).data.otherObjects.any (fun x => x.isBPM) = true :=
  ⟨⟨by decide, by decide, by decide⟩,
   ((C4_bpm_marker_invariant sampleState bpm140).1 ⟨by decide, by decide, by decide⟩).1,
   ((C4_bpm_marker_invariant sampleState speedTwo).2 (by decide)).1⟩

end NoteEditor
